import Mathlib

/-!
Verification development for the spike2py signal-processing engine and trial
construction.  The transform engine (`signal_processing.SignalProcessing`) is
modelled from the specification; `trial.py` is embedded from the source.
Sample values are modelled as exact rationals.
-/

/-- Errors raised by the transform engine: `TypeError` for a wrongly typed
parameter, `ValueError` for an out-of-range parameter. -/
inductive EngineError where
  | typeError
  | valueError
deriving DecidableEq, Repr

/-- A Python numeric argument: either an `int` or a `float`.  Used where the
engine distinguishes parameter kinds (e.g. `first_n_samples`). -/
inductive PyNum where
  | int (n : ℤ)
  | float (q : ℚ)
deriving DecidableEq, Repr

/-- A decimal literal as Python would print a numeric parameter: a sign, an
integer part, and optionally a fractional digit string `(digits, count)`
meaning `digits / 10 ^ count` printed left-padded to `count` digits.
`-2.5` is `⟨true, 2, some (5, 1)⟩`. -/
structure Decimal where
  neg : Bool
  intPart : ℕ
  frac : Option (ℕ × ℕ)
deriving DecidableEq, Repr

/-- Numeric value of a decimal literal. -/
def Decimal.toRat (d : Decimal) : ℚ :=
  (if d.neg then -1 else 1) *
    ((d.intPart : ℚ) + match d.frac with
      | none => 0
      | some fk => (fk.1 : ℚ) / 10 ^ fk.2)

/-- Fractional digits printed left-padded with zeros to `k` digits. -/
def fracDigitsString (f k : ℕ) : String :=
  let s := toString f
  String.mk (List.replicate (k - s.length) '0' ++ s.data)

/-- Modelled from the spec: the textual tag encoding of a numeric parameter
(`_float_to_string_with_underscore`, absent from src/): the decimal point is
replaced by an underscore and the sign is dropped, magnitude only
(e.g. `-2.5` → `2_5`). -/
def Decimal.encode (d : Decimal) : String :=
  toString d.intPart ++ match d.frac with
    | none => ""
    | some fk => "_" ++ fracDigitsString fk.1 fk.2

/-- Modelled from the spec: the SignalState the engine operates on — sample
values, matching timestamps, sampling frequency, units, the append-only
provenance log, and the pre-interpolation snapshot slot for `times`
(`signal_processing.SignalProcessing` is absent from src/). -/
structure SignalState where
  values : List ℚ
  times : List ℚ
  sampling_frequency : ℚ
  units : String
  provenance : List String
  times_pre_interp : Option (List ℚ)
deriving DecidableEq, Repr

/-- Arithmetic mean of a list of samples (`0` for the empty list). -/
def listMean (l : List ℚ) : ℚ := l.sum / l.length

/-- Minimum of a list of samples (`0` for the empty list). -/
def listMin : List ℚ → ℚ
  | [] => 0
  | x :: xs => xs.foldl min x

/-- Maximum of a list of samples (`0` for the empty list). -/
def listMax : List ℚ → ℚ
  | [] => 0
  | x :: xs => xs.foldl max x

/-- Modelled from the spec: `remove_mean(first_n_samples?)` subtracts the mean
of the whole series, or of the first `first_n_samples` samples, from every
sample.  `first_n_samples`, if given, must be an `int` in `[1, len(values)]`:
a float raises a type error, an out-of-range int raises a value error, both
before any mutation.  Tag `"remove_mean"`. -/
def remove_mean (first_n_samples : Option PyNum) (s : SignalState) :
    Except EngineError SignalState :=
  match first_n_samples with
  | none =>
      .ok { s with
              values := s.values.map (fun v => v - listMean s.values),
              provenance := s.provenance ++ ["remove_mean"] }
  | some (.float _) => .error .typeError
  | some (.int n) =>
      if 1 ≤ n ∧ n ≤ (s.values.length : ℤ) then
        .ok { s with
                values :=
                  s.values.map
                    (fun v => v - listMean (s.values.take n.toNat)),
                provenance := s.provenance ++ ["remove_mean"] }
      else .error .valueError

/-- Modelled from the spec: `remove_value(value)` subtracts a constant from
every sample.  Tag `"remove_value_<value>"`, magnitude only, decimal point
replaced by an underscore. -/
def remove_value (d : Decimal) (s : SignalState) : SignalState :=
  { s with
      values := s.values.map (fun v => v - d.toRat),
      provenance := s.provenance ++ ["remove_value_" ++ d.encode] }

/-- Modelled from the spec: `calibrate(slope, offset=0)` applies
`value = value*slope + offset` elementwise.  Tag `"calib"`. -/
def calibrate (slope offset : ℚ) (s : SignalState) : SignalState :=
  { s with
      values := s.values.map (fun v => v * slope + offset),
      provenance := s.provenance ++ ["calib"] }

/-- Modelled from the spec: `rect()` takes the absolute value of every
sample.  Tag `"rect"`. -/
def rect (s : SignalState) : SignalState :=
  { s with
      values := s.values.map (fun v => |v|),
      provenance := s.provenance ++ ["rect"] }

/-- Modelled from the spec: `norm_percentage()` rescales values to
`[0, 100]` using the series' own min and max.  Tag `"norm_percentage"`. -/
def norm_percentage (s : SignalState) : SignalState :=
  { s with
      values :=
        s.values.map
          (fun v =>
            (v - listMin s.values) / (listMax s.values - listMin s.values)
              * 100),
      provenance := s.provenance ++ ["norm_percentage"] }

/-- Modelled from the spec: `norm_proportion()` rescales values to `[0, 1]`
using the series' own min and max.  Tag `"norm_proportion"`. -/
def norm_proportion (s : SignalState) : SignalState :=
  { s with
      values :=
        s.values.map
          (fun v =>
            (v - listMin s.values) / (listMax s.values - listMin s.values)),
      provenance := s.provenance ++ ["norm_proportion"] }

/-- Modelled from the spec: `norm_percent_value(reference)` rescales so that
`reference` maps to 100 (`value / reference * 100`).  Tag `"norm_value"`. -/
def norm_percent_value (reference : ℚ) (s : SignalState) : SignalState :=
  { s with
      values := s.values.map (fun v => v / reference * 100),
      provenance := s.provenance ++ ["norm_value"] }

/-- Modelled from the spec: the filter validity check
(`_check_cutoff_in_range`): every cutoff edge must lie strictly inside
`(0, sampling_frequency / 2)` (Nyquist). -/
def check_cutoff_in_range (cutoffs : List ℚ) (fs : ℚ) : Prop :=
  ∀ c ∈ cutoffs, 0 < c ∧ c < fs / 2

instance (cutoffs : List ℚ) (fs : ℚ) :
    Decidable (check_cutoff_in_range cutoffs fs) := by
  unfold check_cutoff_in_range; infer_instance

/-- Modelled from the spec: the filter order must lie in `[1, 16]`. -/
def check_order_in_range (order : ℤ) : Prop := 1 ≤ order ∧ order ≤ 16

instance (order : ℤ) : Decidable (check_order_in_range order) := by
  unfold check_order_in_range; infer_instance

/-- Modelled from the spec: `lowpass(cutoff, order=4)` validates the cutoff
against `(0, Nyquist)` and the order against `[1, 16]`, raising a value error
before any mutation when either fails; on success it zero-phase-applies the
designed IIR filter (numerics outside the claims, not modelled: the samples
are kept abstractly) and appends the tag `"filt_<cutoff>_lowpass"`. -/
def lowpass (cutoff : Decimal) (order : ℤ) (s : SignalState) :
    Except EngineError SignalState :=
  if check_cutoff_in_range [cutoff.toRat] s.sampling_frequency then
    if check_order_in_range order then
      .ok { s with
              provenance :=
                s.provenance ++ ["filt_" ++ cutoff.encode ++ "_lowpass"] }
    else .error .valueError
  else .error .valueError

/-- Modelled from the spec: `highpass(cutoff, order=4)`, same validation as
`lowpass`; tag `"filt_<cutoff>_highpass"`. -/
def highpass (cutoff : Decimal) (order : ℤ) (s : SignalState) :
    Except EngineError SignalState :=
  if check_cutoff_in_range [cutoff.toRat] s.sampling_frequency then
    if check_order_in_range order then
      .ok { s with
              provenance :=
                s.provenance ++ ["filt_" ++ cutoff.encode ++ "_highpass"] }
    else .error .valueError
  else .error .valueError

/-- Modelled from the spec: `bandpass([low, high], order=4)`: both edges must
satisfy the Nyquist constraint and `low < high`; order in `[1, 16]`.  Tag
`"filt_<low>_<high>_bandpass"`. -/
def bandpass (low high : Decimal) (order : ℤ) (s : SignalState) :
    Except EngineError SignalState :=
  if check_cutoff_in_range [low.toRat, high.toRat] s.sampling_frequency
      ∧ low.toRat < high.toRat then
    if check_order_in_range order then
      .ok { s with
              provenance :=
                s.provenance ++
                  ["filt_" ++ low.encode ++ "_" ++ high.encode
                    ++ "_bandpass"] }
    else .error .valueError
  else .error .valueError

/-- Modelled from the spec: `bandstop([low, high], order=4)`, same validation
as `bandpass`; tag `"filt_<low>_<high>_bandstop"`. -/
def bandstop (low high : Decimal) (order : ℤ) (s : SignalState) :
    Except EngineError SignalState :=
  if check_cutoff_in_range [low.toRat, high.toRat] s.sampling_frequency
      ∧ low.toRat < high.toRat then
    if check_order_in_range order then
      .ok { s with
              provenance :=
                s.provenance ++
                  ["filt_" ++ low.encode ++ "_" ++ high.encode
                    ++ "_bandstop"] }
    else .error .valueError
  else .error .valueError

/-- Modelled from the spec: one-dimensional linear interpolation over sorted
`(time, value)` pairs (`_interp`, numpy-style): clamp to the end values
outside the sampled range, interpolate linearly between bracketing points
inside it. -/
def interp1 (t : ℚ) : List (ℚ × ℚ) → ℚ
  | [] => 0
  | [p] => p.2
  | p :: q :: rest =>
      if t ≤ p.1 then p.2
      else if t ≤ q.1 then
        p.2 + (q.2 - p.2) * (t - p.1) / (q.1 - p.1)
      else interp1 t (q :: rest)

/-- Modelled from the spec: `interp_new_times(new_times)` snapshots the old
`times` into the pre-interpolation slot, then replaces `values`/`times` by
interpolation onto the new time base.  Tag `"interp_new_times"`. -/
def interp_new_times (new_times : List ℚ) (s : SignalState) : SignalState :=
  { s with
      values := new_times.map (fun t => interp1 t (s.times.zip s.values)),
      times := new_times,
      times_pre_interp := some s.times,
      provenance := s.provenance ++ ["interp_new_times"] }

/-- Modelled from the spec: `interp_new_fs(fs)` builds a uniform time base at
the requested rate spanning the original duration — `round(duration * fs)`
samples starting at the original first time, spaced `1 / fs` — interpolates
onto it, snapshots the old `times`, and updates `sampling_frequency` to `fs`.
Tag `"interp_new_fs"`. -/
def interp_new_fs (fs : ℚ) (s : SignalState) : SignalState :=
  let t0 := s.times.headD 0
  let duration := s.times.getLastD 0 - t0
  let n := (round (duration * fs)).toNat
  let new_times := (List.range n).map (fun k => t0 + (Nat.cast k : ℚ) / fs)
  { s with
      values := new_times.map (fun t => interp1 t (s.times.zip s.values)),
      times := new_times,
      times_pre_interp := some s.times,
      sampling_frequency := fs,
      provenance := s.provenance ++ ["interp_new_fs"] }

/-- Modelled from the spec: `linear_detrend()` subtracts the least-squares
best-fit line over `(times, values)` from the series.  Tag
`"linear_detrend"`. -/
def linear_detrend (s : SignalState) : SignalState :=
  let n : ℚ := s.values.length
  let sx := s.times.sum
  let sy := s.values.sum
  let sxx := (s.times.map (fun t => t * t)).sum
  let sxy := ((s.times.zip s.values).map (fun p => p.1 * p.2)).sum
  let slope := (n * sxy - sx * sy) / (n * sxx - sx * sx)
  let intercept := (sy - slope * sx) / n
  { s with
      values :=
        (s.times.zip s.values).map
          (fun p => p.2 - (intercept + slope * p.1)),
      provenance := s.provenance ++ ["linear_detrend"] }

/-- Modelled from the spec: the wavemark instantaneous firing frequency —
the reciprocal of each inter-spike interval, one value per interval,
associated with the time of the second spike of each pair
(the wavemark channel implementation is absent from src/). -/
def instantaneous_firing_frequency (times : List ℚ) : List (ℚ × ℚ) :=
  (times.zip times.tail).map (fun p => (p.2, 1 / (p.2 - p.1)))

/-- `TrialInfo` (trial.py): a named tuple whose fields all default to
`None`.  Paths are modelled as strings. -/
structure TrialInfo where
  file : Option String := none
  channels : Option (List String) := none
  name : Option String := none
  subject_id : Option String := none
  path_save_figures : Option String := none
  path_save_trial : Option String := none
deriving DecidableEq, Repr

/-- Python `str.upper()`: upper-case every character. -/
def pyUpper (s : String) : String := String.mk (s.data.map Char.toUpper)

/-- Python truthiness-based defaulting `x if x else d` for an optional
string: `None` and the empty string both fall back to the default. -/
def pyStrOr (x : Option String) (d : String) : String :=
  match x with
  | none => d
  | some s => if s.isEmpty then d else s

/-- Python falsiness of the `file` field: `None` or an empty path. -/
def fileMissing (file : Option String) : Bool :=
  match file with
  | none => true
  | some s => s.isEmpty

/-- Split a character list at every `'/'` separator. -/
def splitOnSlash : List Char → List (List Char)
  | [] => [[]]
  | c :: rest =>
      match splitOnSlash rest with
      | [] => [[c]]
      | g :: gs => if c = '/' then [] :: g :: gs else (c :: g) :: gs

/-- `Path(p).parent` on a path string: everything before the last
separator, `"."` when there is none. -/
def parentDir (p : String) : String :=
  let parts := splitOnSlash p.data
  if parts.length ≤ 1 then "."
  else String.mk (List.intercalate ['/'] parts.dropLast)

/-- `_check_make_path` (trial.py): keep the given path when it is truthy,
otherwise use the computed default (directory creation is a side effect
outside the model). -/
def check_make_path (path_to_check : Option String) (path_to_make : String) :
    String :=
  pyStrOr path_to_check path_to_make

/-- `Trial._if_needed_add_defaults_to_trial_info` (trial.py): the stored
name defaults to `"trial"` and is upper-cased, `subject_id` defaults to
`"sub"`, and the save paths default to `figures` and `data` folders beside
the source file. -/
def if_needed_add_defaults_to_trial_info (ti : TrialInfo) : TrialInfo :=
  let f := (ti.file.getD "")
  { file := ti.file,
    channels := ti.channels,
    name := some (pyUpper (pyStrOr ti.name "trial")),
    subject_id := some (pyStrOr ti.subject_id "sub"),
    path_save_figures :=
      some (check_make_path ti.path_save_figures (parentDir f ++ "/figures")),
    path_save_trial :=
      some (check_make_path ti.path_save_trial (parentDir f ++ "/data")) }

/-- `Trial.__init__` (trial.py): a missing `file` raises a `ValueError`
before any other construction work; otherwise defaults are filled in (the
subsequent `_parse_trial_data` reads the data file and is outside the
model). -/
def Trial.init (ti : TrialInfo) : Except String TrialInfo :=
  if fileMissing ti.file then
    .error "trial_info must include a valid full path to a data file."
  else
    .ok (if_needed_add_defaults_to_trial_info ti)

lemma listSum_map_sub (v : ℚ) (l : List ℚ) :
    (l.map (fun x => x - v)).sum = l.sum - l.length * v := by
  induction l with
  | nil => simp
  | cons x xs ih =>
      simp only [List.map_cons, List.sum_cons, ih, List.length_cons]
      push_cast
      ring

lemma listMean_map_sub (v : ℚ) (l : List ℚ) (h : l ≠ []) :
    listMean (l.map (fun x => x - v)) = listMean l - v := by
  have hn : (l.length : ℚ) ≠ 0 := by
    have : 0 < l.length := List.length_pos.mpr h
    positivity
  unfold listMean
  rw [List.length_map, listSum_map_sub]
  field_simp

/-- C1: `calibrate(slope, offset)` replaces each sample `v` by
`v * slope + offset` elementwise and records the tag `"calib"`; with the
default `offset = 0` it multiplies every sample by `slope`. -/
theorem calibrate_applies_slope_offset (slope offset : ℚ) (s : SignalState) :
    (calibrate slope offset s).values
        = s.values.map (fun v => v * slope + offset) ∧
    (calibrate slope offset s).provenance = s.provenance ++ ["calib"] ∧
    (calibrate slope 0 s).values = s.values.map (fun v => v * slope) := by
  refine ⟨rfl, rfl, ?_⟩
  show s.values.map (fun v => v * slope + 0) = s.values.map (fun v => v * slope)
  exact List.map_congr_left (fun v _ => by ring)

/-- C9: `rect()` replaces each sample by its absolute value; on an
all-negative series the result is all-nonnegative with the same magnitudes
in the same positions, and `rect` is idempotent on the data. -/
theorem rect_nonneg_idempotent (s : SignalState) :
    (rect s).values = s.values.map (fun v => |v|) ∧
    (∀ v ∈ (rect s).values, 0 ≤ v) ∧
    (rect (rect s)).values = (rect s).values ∧
    ((∀ v ∈ s.values, v < 0) →
      (rect s).values = s.values.map (fun v => -v)) := by
  refine ⟨rfl, ?_, ?_, ?_⟩
  · intro v hv
    simp only [rect, List.mem_map] at hv
    obtain ⟨w, -, rfl⟩ := hv
    exact abs_nonneg w
  · show (s.values.map (fun v => |v|)).map (fun v => |v|)
        = s.values.map (fun v => |v|)
    rw [List.map_map]
    exact List.map_congr_left (fun v _ => abs_abs v)
  · intro hneg
    exact List.map_congr_left (fun v hv => abs_of_neg (hneg v hv))

theorem rect_nonneg_idempotent_witness :
    (∀ v ∈ [(-3 : ℚ), -1, -2], v < 0) ∧
    (rect ⟨[-3, -1, -2], [0, 1, 2], 1000, "mV", [], none⟩).values
      = [(3 : ℚ), 1, 2] := by
  have h := rect_nonneg_idempotent
    ⟨[-3, -1, -2], [0, 1, 2], 1000, "mV", [], none⟩
  refine ⟨by decide, ?_⟩
  rw [h.2.2.2 (by decide)]
  decide

/-- C7: `remove_value(v)` subtracts the constant `v` from every sample, so
the mean decreases by exactly `v`; the recorded tag encodes only the
magnitude of `v`, with the decimal point replaced by an underscore and the
sign dropped. -/
theorem remove_value_subtracts_and_tags (d : Decimal) (s : SignalState)
    (h : s.values ≠ []) :
    (remove_value d s).values = s.values.map (fun v => v - d.toRat) ∧
    listMean (remove_value d s).values = listMean s.values - d.toRat ∧
    (remove_value d s).provenance
      = s.provenance ++ ["remove_value_" ++ d.encode] ∧
    (∀ b : Bool, Decimal.encode ⟨b, d.intPart, d.frac⟩
      = Decimal.encode ⟨false, d.intPart, d.frac⟩) := by
  exact ⟨rfl, listMean_map_sub d.toRat s.values h, rfl, fun b => rfl⟩

theorem remove_value_subtracts_and_tags_witness :
    (([(1 : ℚ), 2] : List ℚ) ≠ []) ∧
    (remove_value ⟨true, 2, some (5, 1)⟩
        ⟨[1, 2], [0, 1], 1000, "mV", [], none⟩).provenance
      = ["remove_value_2_5"] := by
  have h := remove_value_subtracts_and_tags ⟨true, 2, some (5, 1)⟩
    ⟨[1, 2], [0, 1], 1000, "mV", [], none⟩ (by decide)
  refine ⟨by decide, ?_⟩
  rw [h.2.2.1]
  decide

/-- C4: `remove_mean(first_n_samples=v)` raises a type error when `v` is a
float and a value error when `v` is an integer outside `[1, len(values)]`;
in both failure cases no mutated state is produced (the embedding returns
the error with no successor state, modelling raise-before-mutation). -/
theorem remove_mean_validation (s : SignalState) (q : ℚ) (n : ℤ)
    (hn : n < 1 ∨ (s.values.length : ℤ) < n) :
    remove_mean (some (.float q)) s = .error .typeError ∧
    remove_mean (some (.int n)) s = .error .valueError ∧
    (∀ s2, remove_mean (some (.float q)) s ≠ .ok s2) ∧
    (∀ s2, remove_mean (some (.int n)) s ≠ .ok s2) := by
  have hrange : ¬ (1 ≤ n ∧ n ≤ (s.values.length : ℤ)) := by omega
  refine ⟨rfl, ?_, ?_, ?_⟩
  · simp [remove_mean, hrange]
  · intro s2 hcon
    exact Except.noConfusion hcon
  · intro s2 hcon
    rw [show remove_mean (some (.int n)) s = .error .valueError by
          simp [remove_mean, hrange]] at hcon
    exact Except.noConfusion hcon

theorem remove_mean_validation_witness :
    ((0 : ℤ) < 1 ∨ (([(1 : ℚ), 2, 3] : List ℚ).length : ℤ) < 0) ∧
    remove_mean (some (.float (9 / 2)))
        ⟨[1, 2, 3], [0, 1, 2], 1000, "mV", [], none⟩ = .error .typeError ∧
    remove_mean (some (.int 0))
        ⟨[1, 2, 3], [0, 1, 2], 1000, "mV", [], none⟩ = .error .valueError := by
  have h := remove_mean_validation
    ⟨[1, 2, 3], [0, 1, 2], 1000, "mV", [], none⟩ (9 / 2) 0 (Or.inl (by norm_num))
  exact ⟨Or.inl (by norm_num), h.1, h.2.1⟩

lemma not_cutoff_in_range_single (c fs : ℚ)
    (h : c ≤ 0 ∨ fs / 2 ≤ c) : ¬ check_cutoff_in_range [c] fs := by
  intro hc
  obtain ⟨h1, h2⟩ := hc c (by simp)
  rcases h with h | h <;> linarith

lemma not_cutoff_in_range_low (lo hi fs : ℚ)
    (h : lo ≤ 0 ∨ fs / 2 ≤ lo) : ¬ check_cutoff_in_range [lo, hi] fs := by
  intro hc
  obtain ⟨h1, h2⟩ := hc lo (by simp)
  rcases h with h | h <;> linarith

lemma not_cutoff_in_range_high (lo hi fs : ℚ)
    (h : hi ≤ 0 ∨ fs / 2 ≤ hi) : ¬ check_cutoff_in_range [lo, hi] fs := by
  intro hc
  obtain ⟨h1, h2⟩ := hc hi (by simp)
  rcases h with h | h <;> linarith

lemma lowpass_error_of_bad_order (c : Decimal) (k : ℤ) (s : SignalState)
    (ho : ¬ check_order_in_range k) :
    lowpass c k s = .error .valueError := by
  by_cases hc : check_cutoff_in_range [c.toRat] s.sampling_frequency
  · simp [lowpass, hc, ho]
  · simp [lowpass, hc]

lemma highpass_error_of_bad_order (c : Decimal) (k : ℤ) (s : SignalState)
    (ho : ¬ check_order_in_range k) :
    highpass c k s = .error .valueError := by
  by_cases hc : check_cutoff_in_range [c.toRat] s.sampling_frequency
  · simp [highpass, hc, ho]
  · simp [highpass, hc]

lemma bandpass_error_of_bad_order (lo hi : Decimal) (k : ℤ) (s : SignalState)
    (ho : ¬ check_order_in_range k) :
    bandpass lo hi k s = .error .valueError := by
  by_cases hc : check_cutoff_in_range [lo.toRat, hi.toRat] s.sampling_frequency
      ∧ lo.toRat < hi.toRat
  · simp [bandpass, hc, ho]
  · simp [bandpass, hc]

lemma bandstop_error_of_bad_order (lo hi : Decimal) (k : ℤ) (s : SignalState)
    (ho : ¬ check_order_in_range k) :
    bandstop lo hi k s = .error .valueError := by
  by_cases hc : check_cutoff_in_range [lo.toRat, hi.toRat] s.sampling_frequency
      ∧ lo.toRat < hi.toRat
  · simp [bandstop, hc, ho]
  · simp [bandstop, hc]

/-- C5: with positive sampling frequency `fs`, the filters raise a value
error whenever a cutoff `c` has `c ≤ 0` or `c ≥ fs / 2`, and whenever the
order lies outside `[1, 16]`; the same cutoff constraints apply to both
edges of `bandpass`/`bandstop`, which additionally require `low < high`. -/
theorem filter_validation (s : SignalState) (c lo hi : Decimal)
    (order : ℤ) (hfs : 0 < s.sampling_frequency) :
    ((c.toRat ≤ 0 ∨ s.sampling_frequency / 2 ≤ c.toRat) →
      lowpass c order s = .error .valueError ∧
      highpass c order s = .error .valueError) ∧
    ((order < 1 ∨ 16 < order) →
      lowpass c order s = .error .valueError ∧
      highpass c order s = .error .valueError ∧
      bandpass lo hi order s = .error .valueError ∧
      bandstop lo hi order s = .error .valueError) ∧
    ((lo.toRat ≤ 0 ∨ s.sampling_frequency / 2 ≤ lo.toRat
        ∨ hi.toRat ≤ 0 ∨ s.sampling_frequency / 2 ≤ hi.toRat
        ∨ hi.toRat ≤ lo.toRat) →
      bandpass lo hi order s = .error .valueError ∧
      bandstop lo hi order s = .error .valueError) := by
  refine ⟨?_, ?_, ?_⟩
  · intro h
    have hc := not_cutoff_in_range_single c.toRat s.sampling_frequency h
    exact ⟨by simp [lowpass, hc], by simp [highpass, hc]⟩
  · intro h
    have ho : ¬ check_order_in_range order := by
      unfold check_order_in_range; omega
    exact ⟨lowpass_error_of_bad_order c order s ho,
           highpass_error_of_bad_order c order s ho,
           bandpass_error_of_bad_order lo hi order s ho,
           bandstop_error_of_bad_order lo hi order s ho⟩
  · intro h
    have hc : ¬ (check_cutoff_in_range [lo.toRat, hi.toRat]
        s.sampling_frequency ∧ lo.toRat < hi.toRat) := by
      rcases h with h | h | h | h | h
      · exact fun hand =>
          not_cutoff_in_range_low lo.toRat hi.toRat s.sampling_frequency
            (Or.inl h) hand.1
      · exact fun hand =>
          not_cutoff_in_range_low lo.toRat hi.toRat s.sampling_frequency
            (Or.inr h) hand.1
      · exact fun hand =>
          not_cutoff_in_range_high lo.toRat hi.toRat s.sampling_frequency
            (Or.inl h) hand.1
      · exact fun hand =>
          not_cutoff_in_range_high lo.toRat hi.toRat s.sampling_frequency
            (Or.inr h) hand.1
      · exact fun hand => absurd hand.2 (not_lt.mpr h)
    exact ⟨by simp [bandpass, hc], by simp [bandstop, hc]⟩

theorem filter_validation_witness :
    (0 : ℚ) < 1000 ∧
    ((Decimal.mk false 0 none).toRat ≤ 0 ∨
      (1000 : ℚ) / 2 ≤ (Decimal.mk false 0 none).toRat) ∧
    lowpass ⟨false, 0, none⟩ 4
        ⟨[1, 2], [0, 1], 1000, "mV", [], none⟩ = .error .valueError ∧
    ((4 : ℤ) < 1 ∨ (16 : ℤ) < 17) ∧
    bandpass ⟨false, 5, none⟩ ⟨false, 100, none⟩ 17
        ⟨[1, 2], [0, 1], 1000, "mV", [], none⟩ = .error .valueError := by
  have h1 := filter_validation ⟨[1, 2], [0, 1], 1000, "mV", [], none⟩
    ⟨false, 0, none⟩ ⟨false, 5, none⟩ ⟨false, 100, none⟩ 4 (by norm_num)
  have h2 := filter_validation ⟨[1, 2], [0, 1], 1000, "mV", [], none⟩
    ⟨false, 0, none⟩ ⟨false, 5, none⟩ ⟨false, 100, none⟩ 17 (by norm_num)
  have hc0 : (Decimal.mk false 0 none).toRat ≤ 0 := by
    simp [Decimal.toRat]
  exact ⟨by norm_num, Or.inl hc0,
         (h1.1 (Or.inl hc0)).1,
         Or.inr (by norm_num),
         (h2.2.1 (Or.inr (by norm_num))).2.2.1⟩

/-- C2: for a strictly increasing spike-time sequence of length `n ≥ 2`, the
instantaneous firing frequency has exactly `n - 1` entries, the `i`-th being
the reciprocal of the inter-spike interval `times[i+1] - times[i]`,
associated with the time of the second spike of the pair. -/
theorem firing_frequency_intervals (times : List ℚ)
    (hmono : List.Pairwise (· < ·) times) (hlen : 2 ≤ times.length) :
    (instantaneous_firing_frequency times).length = times.length - 1 ∧
    ∀ i (hi : i < (instantaneous_firing_frequency times).length)
      (hi1 : i + 1 < times.length) (hi0 : i < times.length),
      (instantaneous_firing_frequency times).get ⟨i, hi⟩
        = (times.get ⟨i + 1, hi1⟩,
            1 / (times.get ⟨i + 1, hi1⟩ - times.get ⟨i, hi0⟩)) := by
  constructor
  · simp only [instantaneous_firing_frequency, List.length_map,
      List.length_zip, List.length_tail]
    exact min_eq_right (Nat.sub_le times.length 1)
  · intro i hi hi1 hi0
    simp [instantaneous_firing_frequency, List.get_eq_getElem,
      List.getElem_map, List.getElem_zip, List.getElem_tail]

theorem firing_frequency_intervals_witness :
    List.Pairwise (· < ·) [(2 : ℚ), 3, 5] ∧
    2 ≤ ([(2 : ℚ), 3, 5] : List ℚ).length ∧
    (instantaneous_firing_frequency [(2 : ℚ), 3, 5]).length = 2 := by
  have h := firing_frequency_intervals [2, 3, 5] (by decide) (by decide)
  exact ⟨by decide, by decide, h.1⟩

/-- C8: `interp_new_times(new_times)` leaves `len(values) == len(times) ==
len(new_times)` and snapshots the pre-operation `times`; `interp_new_fs(fs)`
leaves `round(duration * fs)` samples on a uniform time base, exposes the
same snapshot, and updates `sampling_frequency` to `fs`. -/
theorem interp_length_and_snapshot (new_times : List ℚ) (fs : ℚ)
    (s : SignalState) :
    (interp_new_times new_times s).values.length = new_times.length ∧
    (interp_new_times new_times s).times.length = new_times.length ∧
    (interp_new_times new_times s).times_pre_interp = some s.times ∧
    (interp_new_fs fs s).values.length
      = (round ((s.times.getLastD 0 - s.times.headD 0) * fs)).toNat ∧
    (interp_new_fs fs s).times.length
      = (interp_new_fs fs s).values.length ∧
    (interp_new_fs fs s).times
      = (List.range (round ((s.times.getLastD 0 - s.times.headD 0)
            * fs)).toNat).map (fun k => s.times.headD 0 + (Nat.cast k : ℚ) / fs) ∧
    (interp_new_fs fs s).times_pre_interp = some s.times ∧
    (interp_new_fs fs s).sampling_frequency = fs := by
  refine ⟨?_, rfl, rfl, ?_, ?_, rfl, rfl, rfl⟩
  · simp [interp_new_times]
  · simp only [interp_new_fs, List.length_map, List.length_range]
  · simp only [interp_new_fs, List.length_map, List.length_range]

/-- C10: constructing a `Trial` from a `TrialInfo` with a missing `file`
raises a `ValueError` before any other construction work; with a file
present, defaults are filled: the stored name is the given name upper-cased
(defaulting to `"TRIAL"`), `subject_id` defaults to `"sub"`, and the save
paths default to `figures` and `data` folders beside the source file. -/
theorem trial_init_defaults (ti : TrialInfo) (f : String)
    (hf : ti.file = some f) (hne : f.isEmpty = false) :
    (∀ t2 : TrialInfo, fileMissing t2.file = true →
      Trial.init t2
        = .error "trial_info must include a valid full path to a data file.") ∧
    ∃ out, Trial.init ti = .ok out ∧
      out.name = some (pyUpper (pyStrOr ti.name "trial")) ∧
      (ti.name = none → out.name = some "TRIAL") ∧
      out.subject_id = some (pyStrOr ti.subject_id "sub") ∧
      (ti.path_save_figures = none →
        out.path_save_figures = some (parentDir f ++ "/figures")) ∧
      (ti.path_save_trial = none →
        out.path_save_trial = some (parentDir f ++ "/data")) := by
  constructor
  · intro t2 h2
    simp [Trial.init, h2]
  · have hmiss : fileMissing ti.file = false := by
      rw [hf]; simpa [fileMissing] using hne
    refine ⟨if_needed_add_defaults_to_trial_info ti, by simp [Trial.init, hmiss], rfl, ?_, rfl, ?_, ?_⟩
    · intro hname
      simp [if_needed_add_defaults_to_trial_info, hname, pyStrOr]
      decide
    · intro hfig
      simp [if_needed_add_defaults_to_trial_info, hfig, check_make_path,
        pyStrOr, hf]
    · intro hdata
      simp [if_needed_add_defaults_to_trial_info, hdata, check_make_path,
        pyStrOr, hf]

theorem trial_init_defaults_witness :
    (TrialInfo.mk (some "home/data/file.mat") none none none none none).file
        = some "home/data/file.mat" ∧
    ("home/data/file.mat".isEmpty = false) ∧
    (∃ out, Trial.init ⟨some "home/data/file.mat", none, none, none, none,
          none⟩ = .ok out ∧
        out.name = some "TRIAL" ∧
        out.subject_id = some "sub" ∧
        out.path_save_figures = some "home/data/figures" ∧
        out.path_save_trial = some "home/data/data") ∧
    Trial.init ⟨none, none, none, none, none, none⟩
      = .error "trial_info must include a valid full path to a data file." := by
  have h := trial_init_defaults
    ⟨some "home/data/file.mat", none, none, none, none, none⟩
    "home/data/file.mat" rfl (by decide)
  obtain ⟨herr, out, hout, -, hname, hsub, hfig, hdata⟩ := h
  refine ⟨rfl, by decide,
    ⟨out, hout, hname rfl, ?_, ?_, ?_⟩,
    herr ⟨none, none, none, none, none, none⟩ rfl⟩
  · rw [hsub]
    rfl
  · rw [hfig rfl]
    decide
  · rw [hdata rfl]
    decide

lemma remove_mean_ok_provenance (c : Option PyNum) (t s3 : SignalState)
    (h : remove_mean c t = .ok s3) :
    s3.provenance = t.provenance ++ ["remove_mean"] := by
  match c with
  | none =>
      simp only [remove_mean, Except.ok.injEq] at h
      rw [← h]
  | some (.float q) => simp [remove_mean] at h
  | some (.int n) =>
      by_cases hin : 1 ≤ n ∧ n ≤ (t.values.length : ℤ)
      · simp only [remove_mean, if_pos hin, Except.ok.injEq] at h
        rw [← h]
      · simp [remove_mean, hin] at h

lemma lowpass_ok_provenance (c : Decimal) (k : ℤ) (t s3 : SignalState)
    (h : lowpass c k t = .ok s3) :
    s3.provenance = t.provenance ++ ["filt_" ++ c.encode ++ "_lowpass"] := by
  by_cases hc : check_cutoff_in_range [c.toRat] t.sampling_frequency
  · by_cases ho : check_order_in_range k
    · simp only [lowpass, if_pos hc, if_pos ho, Except.ok.injEq] at h
      rw [← h]
    · simp [lowpass, hc, ho] at h
  · simp [lowpass, hc] at h

lemma highpass_ok_provenance (c : Decimal) (k : ℤ) (t s3 : SignalState)
    (h : highpass c k t = .ok s3) :
    s3.provenance = t.provenance ++ ["filt_" ++ c.encode ++ "_highpass"] := by
  by_cases hc : check_cutoff_in_range [c.toRat] t.sampling_frequency
  · by_cases ho : check_order_in_range k
    · simp only [highpass, if_pos hc, if_pos ho, Except.ok.injEq] at h
      rw [← h]
    · simp [highpass, hc, ho] at h
  · simp [highpass, hc] at h

lemma bandpass_ok_provenance (lo hi : Decimal) (k : ℤ) (t s3 : SignalState)
    (h : bandpass lo hi k t = .ok s3) :
    s3.provenance = t.provenance
      ++ ["filt_" ++ lo.encode ++ "_" ++ hi.encode ++ "_bandpass"] := by
  by_cases hc : check_cutoff_in_range [lo.toRat, hi.toRat]
      t.sampling_frequency ∧ lo.toRat < hi.toRat
  · by_cases ho : check_order_in_range k
    · simp only [bandpass, if_pos hc, if_pos ho, Except.ok.injEq] at h
      rw [← h]
    · simp [bandpass, hc, ho] at h
  · simp [bandpass, hc] at h

lemma bandstop_ok_provenance (lo hi : Decimal) (k : ℤ) (t s3 : SignalState)
    (h : bandstop lo hi k t = .ok s3) :
    s3.provenance = t.provenance
      ++ ["filt_" ++ lo.encode ++ "_" ++ hi.encode ++ "_bandstop"] := by
  by_cases hc : check_cutoff_in_range [lo.toRat, hi.toRat]
      t.sampling_frequency ∧ lo.toRat < hi.toRat
  · by_cases ho : check_order_in_range k
    · simp only [bandstop, if_pos hc, if_pos ho, Except.ok.injEq] at h
      rw [← h]
    · simp [bandstop, hc, ho] at h
  · simp [bandstop, hc] at h

/-- C3: every successful transform appends exactly one provenance tag per
invocation, in execution order, with no merging or deduplication; in
particular two successive `remove_mean()` calls record two `"remove_mean"`
tags and the provenance length grows by one per successful call. -/
theorem provenance_single_tag_per_call (s s1 s2 : SignalState)
    (h1 : remove_mean none s = .ok s1)
    (h2 : remove_mean none s1 = .ok s2) :
    s1.provenance = s.provenance ++ ["remove_mean"] ∧
    s2.provenance = s.provenance ++ ["remove_mean", "remove_mean"] ∧
    s1.provenance.length = s.provenance.length + 1 ∧
    s2.provenance.length = s1.provenance.length + 1 ∧
    (∀ c t s3, remove_mean c t = .ok s3 →
      s3.provenance = t.provenance ++ ["remove_mean"]) ∧
    (∀ d t, (remove_value d t).provenance
      = t.provenance ++ ["remove_value_" ++ d.encode]) ∧
    (∀ c k t s3, lowpass c k t = .ok s3 →
      s3.provenance = t.provenance ++ ["filt_" ++ c.encode ++ "_lowpass"]) ∧
    (∀ c k t s3, highpass c k t = .ok s3 →
      s3.provenance = t.provenance ++ ["filt_" ++ c.encode ++ "_highpass"]) ∧
    (∀ lo hi k t s3, bandpass lo hi k t = .ok s3 →
      s3.provenance = t.provenance
        ++ ["filt_" ++ lo.encode ++ "_" ++ hi.encode ++ "_bandpass"]) ∧
    (∀ lo hi k t s3, bandstop lo hi k t = .ok s3 →
      s3.provenance = t.provenance
        ++ ["filt_" ++ lo.encode ++ "_" ++ hi.encode ++ "_bandstop"]) ∧
    (∀ a b t, (calibrate a b t).provenance = t.provenance ++ ["calib"]) ∧
    (∀ t, (norm_percentage t).provenance
      = t.provenance ++ ["norm_percentage"]) ∧
    (∀ t, (norm_proportion t).provenance
      = t.provenance ++ ["norm_proportion"]) ∧
    (∀ r t, (norm_percent_value r t).provenance
      = t.provenance ++ ["norm_value"]) ∧
    (∀ nt t, (interp_new_times nt t).provenance
      = t.provenance ++ ["interp_new_times"]) ∧
    (∀ g t, (interp_new_fs g t).provenance
      = t.provenance ++ ["interp_new_fs"]) ∧
    (∀ t, (rect t).provenance = t.provenance ++ ["rect"]) ∧
    (∀ t, (linear_detrend t).provenance
      = t.provenance ++ ["linear_detrend"]) := by
  have hp1 := remove_mean_ok_provenance none s s1 h1
  have hp2 := remove_mean_ok_provenance none s1 s2 h2
  refine ⟨hp1, ?_, ?_, ?_, remove_mean_ok_provenance, fun d t => rfl,
    lowpass_ok_provenance, highpass_ok_provenance, bandpass_ok_provenance,
    bandstop_ok_provenance, fun a b t => rfl, fun t => rfl, fun t => rfl,
    fun r t => rfl, fun nt t => rfl, fun g t => rfl, fun t => rfl,
    fun t => rfl⟩
  · rw [hp2, hp1]
    simp
  · rw [hp1]
    simp
  · rw [hp2]
    simp

theorem provenance_single_tag_per_call_witness :
    remove_mean none ⟨[1, 3], [0, 1], 1000, "mV", [], none⟩
      = .ok ⟨[-1, 1], [0, 1], 1000, "mV", ["remove_mean"], none⟩ ∧
    remove_mean none ⟨[-1, 1], [0, 1], 1000, "mV", ["remove_mean"], none⟩
      = .ok ⟨[-1, 1], [0, 1], 1000, "mV",
              ["remove_mean", "remove_mean"], none⟩ ∧
    (SignalState.mk [-1, 1] [0, 1] 1000 "mV"
        ["remove_mean", "remove_mean"] none).provenance
      = ["remove_mean", "remove_mean"] := by
  have e1 : remove_mean none ⟨[1, 3], [0, 1], 1000, "mV", [], none⟩
      = .ok ⟨[-1, 1], [0, 1], 1000, "mV", ["remove_mean"], none⟩ := by
    norm_num [remove_mean, listMean]
  have e2 : remove_mean none ⟨[-1, 1], [0, 1], 1000, "mV",
        ["remove_mean"], none⟩
      = .ok ⟨[-1, 1], [0, 1], 1000, "mV",
              ["remove_mean", "remove_mean"], none⟩ := by
    norm_num [remove_mean, listMean]
  have h := provenance_single_tag_per_call _ _ _ e1 e2
  exact ⟨e1, e2, by simpa using h.2.1⟩

lemma min_affine (c d x y : ℚ) (hc : 0 ≤ c) :
    min (x * c + d) (y * c + d) = min x y * c + d := by
  rcases le_total x y with h | h
  · rw [min_eq_left h,
      min_eq_left (add_le_add_right (mul_le_mul_of_nonneg_right h hc) d)]
  · rw [min_eq_right h,
      min_eq_right (add_le_add_right (mul_le_mul_of_nonneg_right h hc) d)]

lemma max_affine (c d x y : ℚ) (hc : 0 ≤ c) :
    max (x * c + d) (y * c + d) = max x y * c + d := by
  rcases le_total x y with h | h
  · rw [max_eq_right h,
      max_eq_right (add_le_add_right (mul_le_mul_of_nonneg_right h hc) d)]
  · rw [max_eq_left h,
      max_eq_left (add_le_add_right (mul_le_mul_of_nonneg_right h hc) d)]

lemma foldl_min_affine (c d : ℚ) (hc : 0 ≤ c) (xs : List ℚ) :
    ∀ x : ℚ, (xs.map (fun v => v * c + d)).foldl min (x * c + d)
      = xs.foldl min x * c + d := by
  induction xs with
  | nil => intro x; rfl
  | cons y ys ih =>
      intro x
      simp only [List.map_cons, List.foldl_cons]
      rw [min_affine c d x y hc, ih (min x y)]

lemma foldl_max_affine (c d : ℚ) (hc : 0 ≤ c) (xs : List ℚ) :
    ∀ x : ℚ, (xs.map (fun v => v * c + d)).foldl max (x * c + d)
      = xs.foldl max x * c + d := by
  induction xs with
  | nil => intro x; rfl
  | cons y ys ih =>
      intro x
      simp only [List.map_cons, List.foldl_cons]
      rw [max_affine c d x y hc, ih (max x y)]

lemma listMin_map_affine (c d : ℚ) (hc : 0 ≤ c) (l : List ℚ) (h : l ≠ []) :
    listMin (l.map (fun v => v * c + d)) = listMin l * c + d := by
  cases l with
  | nil => exact absurd rfl h
  | cons x xs =>
      simp only [List.map_cons, listMin]
      exact foldl_min_affine c d hc xs x

lemma listMax_map_affine (c d : ℚ) (hc : 0 ≤ c) (l : List ℚ) (h : l ≠ []) :
    listMax (l.map (fun v => v * c + d)) = listMax l * c + d := by
  cases l with
  | nil => exact absurd rfl h
  | cons x xs =>
      simp only [List.map_cons, listMax]
      exact foldl_max_affine c d hc xs x

/-- C6: for a finite non-constant series, after `norm_percentage()` the
minimum of the values is 0 and the maximum is 100 (exactly, in rational
arithmetic); after `norm_proportion()` the bounds are 0 and 1; each call
records its tag. -/
theorem norm_bounds (s : SignalState)
    (h : listMin s.values < listMax s.values) :
    listMin (norm_percentage s).values = 0 ∧
    listMax (norm_percentage s).values = 100 ∧
    listMin (norm_proportion s).values = 0 ∧
    listMax (norm_proportion s).values = 1 ∧
    (norm_percentage s).provenance = s.provenance ++ ["norm_percentage"] ∧
    (norm_proportion s).provenance = s.provenance ++ ["norm_proportion"] := by
  have hne : s.values ≠ [] := by
    intro he
    rw [he] at h
    exact absurd h (by norm_num [listMin, listMax])
  have hMm : listMax s.values - listMin s.values ≠ 0 :=
    sub_ne_zero.mpr (ne_of_gt h)
  have hMmpos : (0 : ℚ) < listMax s.values - listMin s.values :=
    sub_pos.mpr h
  refine ⟨?_, ?_, ?_, ?_, rfl, rfl⟩
  · have hfun : s.values.map
        (fun v => (v - listMin s.values)
          / (listMax s.values - listMin s.values) * 100)
        = s.values.map (fun v =>
            v * (100 / (listMax s.values - listMin s.values))
              + (-(listMin s.values)
                  * (100 / (listMax s.values - listMin s.values)))) :=
      List.map_congr_left (fun v _ => by field_simp; ring)
    show listMin (s.values.map _) = 0
    rw [hfun, listMin_map_affine _ _ (by positivity) _ hne]
    ring
  · have hfun : s.values.map
        (fun v => (v - listMin s.values)
          / (listMax s.values - listMin s.values) * 100)
        = s.values.map (fun v =>
            v * (100 / (listMax s.values - listMin s.values))
              + (-(listMin s.values)
                  * (100 / (listMax s.values - listMin s.values)))) :=
      List.map_congr_left (fun v _ => by field_simp; ring)
    show listMax (s.values.map _) = 100
    rw [hfun, listMax_map_affine _ _ (by positivity) _ hne]
    field_simp
    ring
  · have hfun : s.values.map
        (fun v => (v - listMin s.values)
          / (listMax s.values - listMin s.values))
        = s.values.map (fun v =>
            v * (1 / (listMax s.values - listMin s.values))
              + (-(listMin s.values)
                  * (1 / (listMax s.values - listMin s.values)))) :=
      List.map_congr_left (fun v _ => by field_simp; ring)
    show listMin (s.values.map _) = 0
    rw [hfun, listMin_map_affine _ _ (by positivity) _ hne]
    ring
  · have hfun : s.values.map
        (fun v => (v - listMin s.values)
          / (listMax s.values - listMin s.values))
        = s.values.map (fun v =>
            v * (1 / (listMax s.values - listMin s.values))
              + (-(listMin s.values)
                  * (1 / (listMax s.values - listMin s.values)))) :=
      List.map_congr_left (fun v _ => by field_simp; ring)
    show listMax (s.values.map _) = 1
    rw [hfun, listMax_map_affine _ _ (by positivity) _ hne]
    field_simp
    ring

theorem norm_bounds_witness :
    listMin [(0 : ℚ), 1, 4] < listMax [(0 : ℚ), 1, 4] ∧
    listMin (norm_percentage
        ⟨[0, 1, 4], [0, 1, 2], 1000, "mV", [], none⟩).values = 0 ∧
    listMax (norm_percentage
        ⟨[0, 1, 4], [0, 1, 2], 1000, "mV", [], none⟩).values = 100 ∧
    listMin (norm_proportion
        ⟨[0, 1, 4], [0, 1, 2], 1000, "mV", [], none⟩).values = 0 ∧
    listMax (norm_proportion
        ⟨[0, 1, 4], [0, 1, 2], 1000, "mV", [], none⟩).values = 1 := by
  have h := norm_bounds ⟨[0, 1, 4], [0, 1, 2], 1000, "mV", [], none⟩
    (by decide)
  exact ⟨by decide, h.1, h.2.1, h.2.2.1, h.2.2.2.1⟩
